import Mathlib

/-!
Verification of the pqview Parquet-metadata reporting tool.

The Python source (`src/main.py`) is shallowly embedded here.  The parsed
footer metadata (provided there by the pyarrow library) is modelled as a
`FileMetadata` value; each CLI command becomes a function in a state-passing
monad `PqM` whose state is the metadata, so that read-only-ness of the
commands is expressible.  Python runtime failures (ZeroDivisionError,
IndexError, TypeError, AttributeError, ValueError) are modelled with the
`PyErr` type; Python float arithmetic on ratios is abstracted to exact
rationals.
-/

namespace PqView

/-- Python runtime errors that the embedded commands can raise. -/
inductive PyErr where
  | zeroDivisionError
  | indexError
  | typeError
  | attributeError
  | valueError
deriving DecidableEq

/-- Modelled from the spec: a decoded statistics value, typed per physical
type (boolean / integer / raw bytes / float, the float kept as raw bits,
decoded as-is). -/
inductive StatValue where
  | boolVal (b : Bool)
  | intVal (i : Int)
  | bytesVal (s : String)
  | floatBits (bits : Nat)
deriving DecidableEq

/-- Modelled from the spec: an optional statistics field is reported either
as a known value or as "unknown", never defaulted to zero or a sentinel. -/
inductive Reported (α : Type) where
  | known (v : α)
  | unknown
deriving DecidableEq

/-- Modelled from the spec: per-column statistics; any subset of the fields
may be absent. -/
structure Statistics where
  min : Option StatValue
  max : Option StatValue
  null_count : Option Nat
  distinct_count : Option Nat
deriving DecidableEq

/-- A column chunk of one row group, with the metadata fields the commands
read. -/
structure ColumnChunk where
  path_in_schema : String
  physical_type : String
  compression : String
  total_compressed_size : Nat
  total_uncompressed_size : Nat
  statistics : Option Statistics
deriving DecidableEq

/-- A row group: its ordered column chunks and its row count. -/
structure RowGroup where
  columns : List ColumnChunk
  num_rows : Nat
deriving DecidableEq

/-- Modelled from the spec: one entry of the flattened pre-order schema
sequence; an element with `num_children = 0` is a leaf column. -/
structure SchemaElement where
  name : String
  num_children : Nat
deriving DecidableEq

/-- The parsed footer metadata tree. -/
structure FileMetadata where
  schema : List SchemaElement
  row_groups : List RowGroup
  num_rows : Nat
deriving DecidableEq

/-- Join a dotted path prefix with a child name. -/
def dotJoin (pre name : String) : String :=
  if pre = "" then name else pre ++ "." ++ name

/-- Pop the stack frames whose pending-children counter reached zero. -/
def popDone : List (Nat × String) → List (Nat × String)
  | (0, _) :: rest => popDone rest
  | st => st

/-- Modelled from the spec: the stack-based fold that rebuilds leaf paths
from the flattened pre-order schema sequence.  Each stack frame holds the
number of children still to consume at that level and the dotted prefix. -/
def leafPathsAux : List SchemaElement → List (Nat × String) → List String
  | _, [] => []
  | [], _ => []
  | e :: es, (r, pre) :: rest =>
      let p := dotJoin pre e.name
      if e.num_children == 0 then
        p :: leafPathsAux es (popDone ((r - 1, pre) :: rest))
      else
        leafPathsAux es ((e.num_children, p) :: (r - 1, pre) :: rest)

/-- Modelled from the spec: leaf-column dotted paths of a flattened schema,
in schema order, skipping the synthetic root (the first element). -/
def schemaLeafPaths (flat : List SchemaElement) : List String :=
  match flat with
  | [] => []
  | root :: rest => leafPathsAux rest [(root.num_children, "")]

/-- The leaf-column paths of a parsed file (`[col.path for col in pf.schema]`). -/
def FileMetadata.schemaPaths (md : FileMetadata) : List String :=
  schemaLeafPaths md.schema

/-- `pf.metadata.num_row_groups`. -/
def FileMetadata.num_row_groups (md : FileMetadata) : Nat :=
  md.row_groups.length

/-- `pf.metadata.num_columns` (the number of schema leaves). -/
def FileMetadata.num_columns (md : FileMetadata) : Nat :=
  md.schemaPaths.length

/-- Modelled from the spec: the invariants of a validly parsed footer that
this tool's commands rely on — the row-group row counts partition the file's
total row count, and every row group has one chunk per schema leaf. -/
def ValidFile (md : FileMetadata) : Prop :=
  (md.row_groups.map RowGroup.num_rows).sum = md.num_rows ∧
  ∀ rgv ∈ md.row_groups, rgv.columns.length = md.num_columns

instance (md : FileMetadata) : Decidable (ValidFile md) := by
  unfold ValidFile; infer_instance

/-- The command monad: state-passing over the parsed metadata, with Python
exceptions.  The state component makes it expressible that commands never
mutate the metadata tree. -/
def PqM (α : Type) : Type :=
  FileMetadata → Except PyErr α × FileMetadata

/-- Monadic return for `PqM`. -/
def PqM.pureM {α : Type} (a : α) : PqM α := fun s => (Except.ok a, s)

/-- Monadic bind for `PqM`: errors abort, the state threads through. -/
def PqM.bindM {α β : Type} (m : PqM α) (f : α → PqM β) : PqM β := fun s =>
  match m s with
  | (Except.ok a, s2) => f a s2
  | (Except.error e, s2) => (Except.error e, s2)

instance : Monad PqM where
  pure := PqM.pureM
  bind := PqM.bindM

/-- Run a command against a parsed metadata tree. -/
def PqM.run {α : Type} (m : PqM α) (s : FileMetadata) :
    Except PyErr α × FileMetadata := m s

/-- Read the (shared, parsed) metadata. -/
def getMd : PqM FileMetadata := fun s => (Except.ok s, s)

/-- Raise a Python exception. -/
def throwPy {α : Type} (e : PyErr) : PqM α := fun s => (Except.error e, s)

/-- Lift a pure fallible computation. -/
def liftEx {α : Type} (x : Except PyErr α) : PqM α := fun s => (x, s)

/-- Python list indexing: raises IndexError when out of range. -/
def pyIndex {α : Type} (l : List α) (i : Nat) : PqM α :=
  match l[i]? with
  | some a => PqM.pureM a
  | none => throwPy PyErr.indexError

/-- `pf.metadata.row_group(i)`. -/
def readRowGroup (i : Nat) : PqM RowGroup := do
  let md ← getMd
  pyIndex md.row_groups i

/-- `row_group.column(i)`. -/
def RowGroup.column (r : RowGroup) (i : Nat) : PqM ColumnChunk :=
  pyIndex r.columns i

/-- Python `a / b` on integers: a rational, raising ZeroDivisionError when
`b = 0` (float rounding is abstracted to exact rationals). -/
def pyDiv (a b : Nat) : PqM ℚ :=
  if b = 0 then throwPy PyErr.zeroDivisionError
  else PqM.pureM ((a : ℚ) / (b : ℚ))

/-- Structural monadic map used for the source's list comprehensions. -/
def mapMList {α β : Type} (f : α → PqM β) : List α → PqM (List β)
  | [] => PqM.pureM []
  | x :: xs => do
      let y ← f x
      let ys ← mapMList f xs
      PqM.pureM (y :: ys)

/-- Structural monadic fold used for the source's accumulating loops. -/
def foldlMList {α β : Type} (f : β → α → PqM β) (b : β) : List α → PqM β
  | [] => PqM.pureM b
  | x :: xs => do
      let b2 ← f b x
      foldlMList f b2 xs

/-- All (row-group index, column index) pairs with the row-group index in
the outer loop (`for rg: for col:`). -/
def rowMajorPairs (nrg ncols : Nat) : List (Nat × Nat) :=
  (List.range nrg).flatMap (fun rg => (List.range ncols).map (fun col => (rg, col)))

/-- All (row-group index, column index) pairs with the column index in the
outer loop (`for col ... for rg ...`). -/
def colMajorPairs (nrg ncols : Nat) : List (Nat × Nat) :=
  (List.range ncols).flatMap (fun col => (List.range nrg).map (fun rg => (rg, col)))

/-- The skip test of `most_compressed`:
`if min_size and min_size > x.total_uncompressed_size: continue`. -/
def mcSkip (min_size : Nat) (x : ColumnChunk) : Bool :=
  decide (min_size ≠ 0) && decide (x.total_uncompressed_size < min_size)

/-- The update test of `most_compressed`:
`if not lowest_val or lowest_val > ratio` (Python's `not` is true on both
`None` and `0.0`). -/
def mcBetter : Option ℚ → ℚ → Bool
  | none, _ => true
  | some lv, ratio => lv == 0 || decide (ratio < lv)

/-- The chunk-iteration pairs the `most_compressed` loop is built from
(row-group major: `for rg: for col:`). -/
def mcIterPairs (md : FileMetadata) : List (Nat × Nat) :=
  rowMajorPairs md.num_row_groups md.num_columns

/-- One iteration of the `most_compressed` loop body. -/
def mcStep (min_size : Nat) (st : Option ℚ × Option Nat × Option Nat)
    (p : Nat × Nat) : PqM (Option ℚ × Option Nat × Option Nat) := do
  let rgv ← readRowGroup p.1
  let x ← rgv.column p.2
  if mcSkip min_size x then
    PqM.pureM st
  else do
    let ratio ← pyDiv x.total_compressed_size x.total_uncompressed_size
    if mcBetter st.1 ratio then PqM.pureM (some ratio, some p.1, some p.2)
    else PqM.pureM st

/-- The `most_compressed` command.  The output is the data of the final
report: uncompressed size, compressed size, the `%d`-formatted inverse
ratio, and the winning chunk. -/
def most_compressed (min_size : Nat) : PqM (Nat × Nat × Int × ColumnChunk) := do
  let md ← getMd
  let st ← foldlMList (mcStep min_size) (none, none, none) (mcIterPairs md)
  match st.2.1, st.2.2 with
  | some lowest_rg, some lowest_col => do
      let rgv ← readRowGroup lowest_rg
      let rg_column ← rgv.column lowest_col
      let r ← pyDiv rg_column.total_uncompressed_size rg_column.total_compressed_size
      PqM.pureM (rg_column.total_uncompressed_size,
                 rg_column.total_compressed_size, ⌊r⌋, rg_column)
  | _, _ => throwPy PyErr.typeError

deriving instance DecidableEq for Except

/-- Modelled from the spec: report an optional statistics field, absent
fields becoming "unknown". -/
def reportOpt {α : Type} : Option α → Reported α
  | some v => Reported.known v
  | none => Reported.unknown

/-- Modelled from the spec: the facade's statistics query — the reported
min, max and null count of a column chunk's statistics. -/
def statsReport (s : Statistics) :
    Reported StatValue × Reported StatValue × Reported Nat :=
  (reportOpt s.min, reportOpt s.max, reportOpt s.null_count)

/-- A table cell value. -/
inductive Cell where
  | nat (v : Nat)
  | str (v : String)
  | rep (v : Reported StatValue)
deriving DecidableEq

/-- Python dict lookup on a record: the value of the first matching key. -/
def lookupCell {α : Type} (x : List (String × α)) (k : String) : Option α :=
  (x.find? (fun kv => kv.1 == k)).map (fun kv => kv.2)

/-- `render_table`: headers are the first record's keys (`out[0].keys()`,
an IndexError on the empty list); a key missing from a later record renders
as `None`. -/
def render_table {α : Type} (out : List (List (String × α))) :
    Except PyErr (List String × List (List (Option α))) :=
  match out with
  | [] => Except.error PyErr.indexError
  | first :: rest =>
      let keys := first.map Prod.fst
      Except.ok (keys, (first :: rest).map (fun x => keys.map (fun k => lookupCell x k)))

/-- First-occurrence deduplication (the key order of a Python `Counter` /
`dict`), written with a seen-accumulator so it evaluates structurally. -/
def pyDedupAux {α : Type} [DecidableEq α] (seen : List α) : List α → List α
  | [] => []
  | x :: xs => if x ∈ seen then pyDedupAux seen xs else x :: pyDedupAux (x :: seen) xs

/-- First-occurrence deduplication of a list. -/
def pyDedup {α : Type} [DecidableEq α] (l : List α) : List α :=
  pyDedupAux [] l

/-- Python `Counter(l).items()`: each distinct value with its multiplicity,
in first-occurrence order. -/
def counter {α : Type} [DecidableEq α] (l : List α) : List (α × Nat) :=
  (pyDedup l).map (fun v => (v, l.count v))

/-- One step of `reduce(add, map(Counter, ...))`: `Counter.__add__` sums
counts per key, keeps the left operand's key order followed by new keys,
and drops non-positive entries. -/
def counterAddOne (acc : List (String × Nat)) (kv : String × Nat) :
    List (String × Nat) :=
  let merged :=
    if acc.any (fun q => q.1 == kv.1) then
      acc.map (fun q => if q.1 == kv.1 then (q.1, q.2 + kv.2) else q)
    else acc ++ [kv]
  merged.filter (fun q => decide (0 < q.2))

/-- `reduce(add, map(Counter, pairs))`: a TypeError on an empty sequence
(reduce with no initial value), else the summed counter. -/
def reduceCounters (pairs : List (String × Nat)) : PqM (List (String × Nat)) :=
  match pairs with
  | [] => throwPy PyErr.typeError
  | x :: xs => PqM.pureM (xs.foldl counterAddOne [x])

/-- Insert an element before the first list element it compares
less-or-equal to. -/
def insertSorted {α : Type} (le : α → α → Bool) (x : α) : List α → List α
  | [] => [x]
  | y :: ys => if le x y then x :: y :: ys else y :: insertSorted le x ys

/-- Python's stable `sorted` under a total boolean comparison (insertion
sort, so it evaluates structurally; ties keep their original order). -/
def pySorted {α : Type} (le : α → α → Bool) : List α → List α
  | [] => []
  | x :: xs => insertSorted le x (pySorted le xs)

/-- `dict(sorted(items, key=lambda x: x[1], reverse=True))`: entries in
descending count order. -/
def sortDescByVal (l : List (String × Nat)) : List (String × Nat) :=
  pySorted (fun a b => decide (b.2 ≤ a.2)) l

/-- `itemgetter(sort_id)` on a pair of naturals. -/
def pairKey (sort_id : Nat) (p : Nat × Nat) : Nat :=
  if sort_id == 0 then p.1 else p.2

/-- The comparison `sorted(..., key=itemgetter(sort_id), reverse=reverse)`
uses in the `row_groups` command. -/
def rowGroupsLe (sort_id : Nat) (reverse : Bool) (a b : Nat × Nat) : Bool :=
  if reverse then decide (pairKey sort_id b ≤ pairKey sort_id a)
  else decide (pairKey sort_id a ≤ pairKey sort_id b)

/-- Lexicographic code-point comparison of character lists (Python string
`<=`). -/
def charListLe : List Char → List Char → Bool
  | [], _ => true
  | _ :: _, [] => false
  | a :: as, b :: bs => if a < b then true else if b < a then false else charListLe as bs

/-- Python string `<=`. -/
def strLe (a b : String) : Bool := charListLe a.data b.data

/-- `'%.1f' % q`: the rational rounded to tenths, printed with one decimal
(Python's binary-float half-even rounding is abstracted to exact rational
rounding; all formatted ratios here are non-negative). -/
def fmtTenths (q : ℚ) : String :=
  let n : Int := round (q * 10)
  toString (n / 10) ++ "." ++ toString (n % 10)

/-- Python `float(s)` on a decimal string, a ValueError when unparsable. -/
def pyFloat (s : String) : PqM ℚ :=
  match s.splitOn "." with
  | [a, b] =>
      match a.toNat?, b.toNat? with
      | some ia, some ib => PqM.pureM ((ia : ℚ) + (ib : ℚ) / ((10 : ℚ) ^ b.length))
      | _, _ => throwPy PyErr.valueError
  | _ => throwPy PyErr.valueError

/-- Python `a / b` on rationals, raising ZeroDivisionError when `b = 0`. -/
def pyDivQ (a b : ℚ) : PqM ℚ :=
  if b = 0 then throwPy PyErr.zeroDivisionError else PqM.pureM (a / b)

/-- The comparison used by the `ratios` command's `sorted` call:
`itemgetter(0)` compares the formatted ratio strings lexicographically,
`itemgetter(1)` compares the counts. -/
def ratiosLe (sort_id : Nat) (reverse : Bool) (a b : String × Nat) : Bool :=
  if sort_id == 0 then (if reverse then strLe b.1 a.1 else strLe a.1 b.1)
  else (if reverse then decide (b.2 ≤ a.2) else decide (a.2 ≤ b.2))

/-- The chunk-iteration pairs the `sizes` comprehension is built from
(`for col in range(num_columns) for rg in range(num_row_groups)`:
column major). -/
def sizesIterPairs (md : FileMetadata) : List (Nat × Nat) :=
  colMajorPairs md.num_row_groups md.num_columns

/-- The chunk-iteration pairs the `schemes` generator is built from
(`for col ... for rg ...`: column major). -/
def schemesIterPairs (md : FileMetadata) : List (Nat × Nat) :=
  colMajorPairs md.num_row_groups md.num_columns

/-- The chunk-iteration pairs both branches of the `types` command are
built from (`for col: for rg:`: column major). -/
def typesIterPairs (md : FileMetadata) : List (Nat × Nat) :=
  colMajorPairs md.num_row_groups md.num_columns

/-- The chunk-iteration pairs the `ratios` loop is built from
(`for rg: for col:`: row-group major). -/
def ratiosIterPairs (md : FileMetadata) : List (Nat × Nat) :=
  rowMajorPairs md.num_row_groups md.num_columns

/-- The chunk-iteration pairs the `ratios_by_column` comprehension is built
from (`for rg ... for col ...`: row-group major). -/
def rbcIterPairs (md : FileMetadata) : List (Nat × Nat) :=
  rowMajorPairs md.num_row_groups md.num_columns

/-- The `overall` command prints the parsed metadata. -/
def overall : PqM FileMetadata := getMd

/-- One read of `pf.metadata.row_group(rg).num_rows`. -/
def rowGroupsCount (rg : Nat) : PqM Nat := do
  PqM.pureM (← readRowGroup rg).num_rows

/-- The per-row-group record counts read by the `row_groups` command
(`pf.metadata.row_group(rg).num_rows for rg in range(0, num_row_groups)`). -/
def rowGroupsCounts : PqM (List Nat) := do
  let md ← getMd
  mapMList rowGroupsCount (List.range md.num_row_groups)

/-- The `row_groups` command: a rendered table of
`Counter(per-row-group record counts)` sorted by the chosen key. -/
def row_groups (sort_key : String) (reverse : Bool) :
    PqM (List String × List (List (Option Cell))) := do
  let counts ← rowGroupsCounts
  let sort_id : Nat := if sort_key == "row-groups" then 1 else 0
  let items := pySorted (rowGroupsLe sort_id reverse) (counter counts)
  let recs := items.map (fun p => [("num_records", Cell.nat p.1), ("num_rg", Cell.nat p.2)])
  liftEx (render_table recs)

/-- One read of `row_group(rg).column(col).compression`. -/
def schemesItem (p : Nat × Nat) : PqM String := do
  PqM.pureM (← (← readRowGroup p.1).column p.2).compression

/-- The `schemes` command: the set of compression scheme names (Python's
set iteration order is unspecified; modelled as first-occurrence order). -/
def schemes : PqM (List String) := do
  let md ← getMd
  let lst ← mapMList schemesItem (schemesIterPairs md)
  PqM.pureM (pyDedup lst)

/-- One `{path: compressed size}` entry of the `sizes` comprehension. -/
def sizesItem (p : Nat × Nat) : PqM (String × Nat) := do
  let x ← (← readRowGroup p.1).column p.2
  PqM.pureM (x.path_in_schema, x.total_compressed_size)

/-- The `sizes` command: total compressed bytes per column path, summed
with `reduce(add, map(Counter, ...))` and listed in descending size order. -/
def sizes : PqM (List (String × Nat)) := do
  let md ← getMd
  let pairs ← mapMList sizesItem (sizesIterPairs md)
  let c ← reduceCounters pairs
  PqM.pureM (sortDescByVal c)

/-- Ordered-dict upsert on the inner mapping: `+=` on an existing key, an
append of the fresh value otherwise. -/
def innerBump (inner : List (String × Nat)) (cn : String) (v : Nat) :
    List (String × Nat) :=
  if inner.any (fun q => q.1 == cn) then
    inner.map (fun q => if q.1 == cn then (q.1, q.2 + v) else q)
  else inner ++ [(cn, v)]

/-- Ordered-dict upsert on the nested `stats` mapping of the `types`
command's html branch. -/
def statsUpsert (stats : List (String × List (String × Nat))) (pt cn : String)
    (v : Nat) : List (String × List (String × Nat)) :=
  if stats.any (fun q => q.1 == pt) then
    stats.map (fun q => if q.1 == pt then (q.1, innerBump q.2 cn v) else q)
  else stats ++ [(pt, innerBump [] cn v)]

/-- `render_sunburst`'s grouping of the records into a nested mapping
parent → child → summed value, a record's child name collapsing to "Other"
when its value is not above `group_under`. -/
def render_sunburst (source : List (String × String × Nat)) (group_under : Nat) :
    List (String × List (String × Nat)) :=
  source.foldl (fun inv rec =>
    let child := if group_under < rec.2.2 then rec.2.1 else "Other"
    statsUpsert inv rec.1 child rec.2.2) []

/-- The output of the `types` command: sunburst-chart data in html mode, a
sorted counter table otherwise. -/
inductive TypesOut where
  | chart (data : List (String × List (String × Nat)))
  | table (rows : List (String × Nat))
deriving DecidableEq

/-- One `{physical type: compressed size}` entry of the `types`
comprehension. -/
def typesItem (p : Nat × Nat) : PqM (String × Nat) := do
  let x ← (← readRowGroup p.1).column p.2
  PqM.pureM (x.physical_type, x.total_compressed_size)

/-- One iteration of the nested-dict accumulation in the `types` command's
html branch. -/
def typesHtmlStep (col_names : List String)
    (stats : List (String × List (String × Nat))) (p : Nat × Nat) :
    PqM (List (String × List (String × Nat))) := do
  let rgv ← readRowGroup p.1
  let x ← rgv.column p.2
  let cn ← pyIndex col_names p.2
  PqM.pureM (statsUpsert stats x.physical_type cn x.total_compressed_size)

/-- The `types` command: total compressed bytes per physical type, either
as sunburst data (html) or as a sorted counter table. -/
def types (html : Bool) : PqM TypesOut := do
  let md ← getMd
  if html then do
    let col_names := md.schemaPaths
    let stats ← foldlMList (typesHtmlStep col_names) [] (typesIterPairs md)
    let stats2 := stats.flatMap (fun q => q.2.map (fun r => (q.1, r.1, r.2)))
    PqM.pureM (TypesOut.chart (render_sunburst stats2 0))
  else do
    let pairs ← mapMList typesItem (typesIterPairs md)
    let c ← reduceCounters pairs
    PqM.pureM (TypesOut.table (sortDescByVal c))

/-- One formatted per-chunk compression ratio of the `ratios` loop. -/
def ratiosItem (p : Nat × Nat) : PqM String := do
  let x ← (← readRowGroup p.1).column p.2
  let ratio ← pyDiv x.total_compressed_size x.total_uncompressed_size
  PqM.pureM (fmtTenths ratio)

/-- One rendered record of the `ratios` table:
`{'ratio': '%.1f:1' % (1 / float(ratio)), 'num_rg': num_rg}`. -/
def ratiosRec (q : String × Nat) : PqM (List (String × Cell)) := do
  let v ← pyFloat q.1
  let inv ← pyDivQ 1 v
  PqM.pureM [("ratio", Cell.str (fmtTenths inv ++ ":1")),
             ("num_rg", Cell.nat q.2)]

/-- The `ratios` command: each chunk's compression ratio formatted to one
decimal, counted, sorted, and rendered with the inverted `x:1` display. -/
def ratios (sort_key : String) (reverse : Bool) :
    PqM (List String × List (List (Option Cell))) := do
  let md ← getMd
  let ratioStrs ← mapMList ratiosItem (ratiosIterPairs md)
  let sort_id : Nat := if sort_key == "ratio" then 0 else 1
  let items := pySorted (ratiosLe sort_id reverse) (counter ratioStrs)
  let recs ← mapMList ratiosRec items
  liftEx (render_table recs)

/-- The match list of the `minmax` command:
`[col_num for col_num, col in enumerate(pf.schema) if col.path == column]`. -/
def matchesMinmax (md : FileMetadata) (column : String) : List Nat :=
  ((md.schemaPaths.enum).filter (fun p => p.2 == column)).map Prod.fst

/-- One row of the `minmax` table: the reported min and max of the chunk
at `col_num` in row group `rg` (an AttributeError when the chunk carries no
statistics object at all, as in the source's `.statistics.min` on `None`). -/
def minmaxRow (col_num rg : Nat) : PqM (List (String × Cell)) := do
  let rgv ← readRowGroup rg
  let x ← rgv.column col_num
  let st ← match x.statistics with
    | none => throwPy PyErr.attributeError
    | some s => PqM.pureM s
  PqM.pureM [("rg_num", Cell.nat rg),
             ("min", Cell.rep (reportOpt st.min)),
             ("max", Cell.rep (reportOpt st.max))]

/-- The `minmax` command: the first schema index whose path equals the
given column name (an IndexError when no path matches), then a rendered
table of each row group's reported min and max for that column. -/
def minmax (column : String) :
    PqM (List String × List (List (Option Cell))) := do
  let md ← getMd
  let col_num ← match matchesMinmax md column with
    | [] => throwPy PyErr.indexError
    | i :: _ => PqM.pureM i
  let rows ← mapMList (minmaxRow col_num) (List.range md.num_row_groups)
  liftEx (render_table rows)

/-- One record of the `ratios_by_column` DataFrame. -/
def rbcItem (cols : List String) (p : Nat × Nat) : PqM (Nat × String × ℚ) := do
  let name ← pyIndex cols p.2
  let x ← (← readRowGroup p.1).column p.2
  let eff ← pyDiv x.total_compressed_size x.total_uncompressed_size
  PqM.pureM (p.1, name, eff)

/-- The `ratios_by_column` command: the chart's underlying records
(row group, column name, compression efficiency), row-group major. -/
def ratios_by_column : PqM (List (Nat × String × ℚ)) := do
  let md ← getMd
  let cols := md.schemaPaths
  mapMList (rbcItem cols) (rbcIterPairs md)

/-- Errors of the footer locator: both are the spec's `FormatError`. -/
inductive FmtErr where
  | badMagic
  | footerTooLarge
deriving DecidableEq

/-- The fixed 4-byte magic marker "PAR1". -/
def PAR1 : List Nat := [0x50, 0x41, 0x52, 0x31]

/-- A little-endian unsigned 32-bit read of four bytes. -/
def le32 (l : List Nat) : Nat :=
  match l with
  | [a, b, c, d] => a + 256 * (b + 256 * (c + 256 * d))
  | _ => 0

/-- Modelled from the spec: the footer locator — read the 8-byte trailer,
validate the trailing 4-byte magic, read the little-endian footer length
`L`, fail when `8 + L` exceeds the file size, else return the footer's
byte range. -/
def locateFooter (bytes : List Nat) : Except FmtErr (Nat × Nat) :=
  if bytes.length < 8 then Except.error FmtErr.footerTooLarge
  else if bytes.drop (bytes.length - 4) ≠ PAR1 then Except.error FmtErr.badMagic
  else
    let L := le32 ((bytes.drop (bytes.length - 8)).take 4)
    if bytes.length < 8 + L then Except.error FmtErr.footerTooLarge
    else Except.ok (bytes.length - 8 - L, bytes.length - 8)

/-- A one-row-group, one-column file whose only chunk has uncompressed size
zero (an empty or all-null column). -/
def mdZeroChunk : FileMetadata :=
  { schema := [⟨"schema", 1⟩, ⟨"a", 0⟩]
    row_groups := [{ columns := [{ path_in_schema := "a"
                                   physical_type := "INT64"
                                   compression := "SNAPPY"
                                   total_compressed_size := 0
                                   total_uncompressed_size := 0
                                   statistics := none }]
                     num_rows := 0 }]
    num_rows := 0 }

/-- A column chunk literal. -/
def mkChunk (path ptype compr : String) (comp uncomp : Nat)
    (st : Option Statistics) : ColumnChunk :=
  { path_in_schema := path, physical_type := ptype, compression := compr,
    total_compressed_size := comp, total_uncompressed_size := uncomp,
    statistics := st }

/-- A two-row-group, two-column file (row counts 3 and 5, total 8). -/
def md2x2 : FileMetadata :=
  { schema := [⟨"schema", 2⟩, ⟨"a", 0⟩, ⟨"b", 0⟩]
    row_groups :=
      [{ columns := [mkChunk "a" "INT64" "SNAPPY" 5 10 none,
                     mkChunk "b" "BYTE_ARRAY" "SNAPPY" 4 16 none]
         num_rows := 3 },
       { columns := [mkChunk "a" "INT64" "SNAPPY" 6 12 none,
                     mkChunk "b" "BYTE_ARRAY" "SNAPPY" 2 16 none]
         num_rows := 5 }]
    num_rows := 8 }

/-- A file with the nested schema `{id: int64, point: {x: double, y: double}}`,
flattened in pre-order with child counts. -/
def mdNested : FileMetadata :=
  { schema := [⟨"schema", 2⟩, ⟨"id", 0⟩, ⟨"point", 2⟩, ⟨"x", 0⟩, ⟨"y", 0⟩]
    row_groups := []
    num_rows := 0 }

/-- Statistics carrying only a null count (min and max absent). -/
def statsOnlyNulls : Statistics :=
  { min := none, max := none, null_count := some 7, distinct_count := none }

/-- A two-row-group, three-column file whose column "b" carries statistics
with only a null count. -/
def mdStats : FileMetadata :=
  { schema := [⟨"schema", 3⟩, ⟨"a", 0⟩, ⟨"b", 0⟩, ⟨"c", 0⟩]
    row_groups :=
      [{ columns := [mkChunk "a" "INT64" "SNAPPY" 5 10 none,
                     mkChunk "b" "INT64" "SNAPPY" 4 16 (some statsOnlyNulls),
                     mkChunk "c" "INT64" "SNAPPY" 4 16 none]
         num_rows := 3 },
       { columns := [mkChunk "a" "INT64" "SNAPPY" 6 12 none,
                     mkChunk "b" "INT64" "SNAPPY" 2 16 (some statsOnlyNulls),
                     mkChunk "c" "INT64" "SNAPPY" 3 16 none]
         num_rows := 5 }]
    num_rows := 8 }

/-- The smallest valid file for the footer locator: a zero-length footer
followed by the 8-byte trailer. -/
def pqBytesMin : List Nat := [0, 0, 0, 0, 0x50, 0x41, 0x52, 0x31]

/-- A command preserves the parsed metadata: running it from any state
leaves the state unchanged. -/
def Pres {α : Type} (m : PqM α) : Prop := ∀ s, (m s).2 = s

/-! ## Helper lemmas -/

theorem bind_def {α β : Type} (m : PqM α) (f : α → PqM β) :
    m >>= f = PqM.bindM m f := rfl

theorem pure_def {α : Type} (a : α) : (pure a : PqM α) = PqM.pureM a := rfl

theorem pureM_eval {α : Type} (a : α) (s : FileMetadata) :
    (PqM.pureM a) s = (Except.ok a, s) := rfl

theorem getMd_eval (s : FileMetadata) : getMd s = (Except.ok s, s) := rfl

theorem throwPy_eval {α : Type} (e : PyErr) (s : FileMetadata) :
    (throwPy e : PqM α) s = (Except.error e, s) := rfl

theorem liftEx_eval {α : Type} (x : Except PyErr α) (s : FileMetadata) :
    (liftEx x) s = (x, s) := rfl

theorem bind_eval_ok {α β : Type} {m : PqM α} {f : α → PqM β}
    {s s2 : FileMetadata} {a : α} (h : m s = (Except.ok a, s2)) :
    (m >>= f) s = f a s2 := by
  show PqM.bindM m f s = f a s2
  unfold PqM.bindM
  rw [h]

theorem bind_eval_err {α β : Type} {m : PqM α} {f : α → PqM β}
    {s s2 : FileMetadata} {e : PyErr} (h : m s = (Except.error e, s2)) :
    (m >>= f) s = (Except.error e, s2) := by
  show PqM.bindM m f s = _
  unfold PqM.bindM
  rw [h]

theorem pyIndex_ok {α : Type} {l : List α} {i : Nat} {a : α}
    (h : l[i]? = some a) (s : FileMetadata) :
    pyIndex l i s = (Except.ok a, s) := by
  unfold pyIndex
  rw [h]
  rfl

theorem pyIndex_err {α : Type} {l : List α} {i : Nat}
    (h : l[i]? = none) (s : FileMetadata) :
    pyIndex l i s = (Except.error PyErr.indexError, s) := by
  unfold pyIndex
  rw [h]
  rfl

theorem readRowGroup_eval {i : Nat} {s : FileMetadata} {r : RowGroup}
    (h : s.row_groups[i]? = some r) :
    readRowGroup i s = (Except.ok r, s) := by
  unfold readRowGroup
  rw [bind_eval_ok (getMd_eval s)]
  exact pyIndex_ok h s

theorem column_eval {r : RowGroup} {i : Nat} {x : ColumnChunk}
    (h : r.columns[i]? = some x) (s : FileMetadata) :
    r.column i s = (Except.ok x, s) :=
  pyIndex_ok h s

theorem mapMList_eval {α β : Type} {f : α → PqM β} {g : α → β}
    {s : FileMetadata} :
    ∀ {l : List α}, (∀ x ∈ l, f x s = (Except.ok (g x), s)) →
      mapMList f l s = (Except.ok (l.map g), s)
  | [], _ => rfl
  | x :: xs, h => by
      unfold mapMList
      rw [bind_eval_ok (h x (List.mem_cons_self x xs))]
      rw [bind_eval_ok (mapMList_eval (fun y hy => h y (List.mem_cons_of_mem x hy)))]
      rfl

theorem foldlMList_const {α β : Type} {f : β → α → PqM β} {s : FileMetadata} :
    ∀ {l : List α} {b : β}, (∀ b2 x, x ∈ l → f b2 x s = (Except.ok b2, s)) →
      foldlMList f b l s = (Except.ok b, s)
  | [], _, _ => rfl
  | x :: xs, b, h => by
      unfold foldlMList
      rw [bind_eval_ok (h b x (List.mem_cons_self x xs))]
      exact foldlMList_const (fun b2 y hy => h b2 y (List.mem_cons_of_mem x hy))

theorem mem_rowMajorPairs {n c : Nat} {p : Nat × Nat} :
    p ∈ rowMajorPairs n c ↔ p.1 < n ∧ p.2 < c := by
  cases p with
  | mk a b =>
    simp only [rowMajorPairs, List.mem_flatMap, List.mem_map, List.mem_range,
      Prod.mk.injEq]
    constructor
    · rintro ⟨rg, hrg, col, hcol, rfl, rfl⟩; exact ⟨hrg, hcol⟩
    · rintro ⟨ha, hb⟩; exact ⟨a, ha, b, hb, rfl, rfl⟩

theorem mem_colMajorPairs {n c : Nat} {p : Nat × Nat} :
    p ∈ colMajorPairs n c ↔ p.1 < n ∧ p.2 < c := by
  cases p with
  | mk a b =>
    simp only [colMajorPairs, List.mem_flatMap, List.mem_map, List.mem_range,
      Prod.mk.injEq]
    constructor
    · rintro ⟨col, hcol, rg, hrg, rfl, rfl⟩; exact ⟨hrg, hcol⟩
    · rintro ⟨ha, hb⟩; exact ⟨b, hb, a, ha, rfl, rfl⟩

theorem nodup_rowMajorPairs (n c : Nat) : (rowMajorPairs n c).Nodup := by
  rw [rowMajorPairs, List.nodup_flatMap]
  constructor
  · intro x _
    exact (List.nodup_range c).map (fun a b h => by simpa using h)
  · apply List.Pairwise.imp ?_ (List.nodup_range n)
    intro a b hab
    simp only [Function.onFun, List.disjoint_left]
    rintro ⟨x, y⟩ hx hy
    simp only [List.mem_map, List.mem_range] at hx hy
    obtain ⟨c1, _, h1⟩ := hx
    obtain ⟨c2, _, h2⟩ := hy
    cases h1; cases h2; exact hab rfl

theorem nodup_colMajorPairs (n c : Nat) : (colMajorPairs n c).Nodup := by
  rw [colMajorPairs, List.nodup_flatMap]
  constructor
  · intro x _
    exact (List.nodup_range n).map (fun a b h => by simpa using h)
  · apply List.Pairwise.imp ?_ (List.nodup_range c)
    intro a b hab
    simp only [Function.onFun, List.disjoint_left]
    rintro ⟨x, y⟩ hx hy
    simp only [List.mem_map, List.mem_range] at hx hy
    obtain ⟨c1, _, h1⟩ := hx
    obtain ⟨c2, _, h2⟩ := hy
    cases h1; cases h2; exact hab rfl

theorem length_rowMajorPairs (n c : Nat) : (rowMajorPairs n c).length = n * c := by
  have h : List.map (List.length ∘ fun rg => List.map (fun col => (rg, col)) (List.range c))
      (List.range n) = List.replicate (List.range n).length c :=
    List.map_eq_replicate_iff.mpr (by intro x hx; simp)
  rw [rowMajorPairs, List.length_flatMap, h, List.sum_replicate, smul_eq_mul,
    List.length_range]

theorem length_colMajorPairs (n c : Nat) : (colMajorPairs n c).length = n * c := by
  have h : List.map (List.length ∘ fun col => List.map (fun rg => (rg, col)) (List.range n))
      (List.range c) = List.replicate (List.range c).length n :=
    List.map_eq_replicate_iff.mpr (by intro x hx; simp)
  rw [colMajorPairs, List.length_flatMap, h, List.sum_replicate, smul_eq_mul,
    List.length_range, Nat.mul_comm]

/-! ## Claim C1 -/

/-- C1: `most_compressed` computes `total_compressed_size /
total_uncompressed_size` for every chunk it does not skip without
validating `total_uncompressed_size > 0`; with the default `min_size = 0`
the filter skips nothing, and on a file containing a chunk of uncompressed
size zero the command reaches an unguarded division by zero. -/
theorem C1_most_compressed_division_unguarded :
    (∀ x : ColumnChunk, mcSkip 0 x = false) ∧
    ((most_compressed 0).run mdZeroChunk).1 = Except.error PyErr.zeroDivisionError := by
  constructor
  · intro x; simp [mcSkip]
  · decide

/-! ## Claim C2 -/

/-- C2 counterexample: on a 2×2 file the iteration the `sizes` command is
built from (`for col ... for rg ...`) enumerates the (row-group, column)
pairs in column-major order, not in row-group-major order as claimed. -/
theorem C2_sizes_iteration_not_row_major :
    sizesIterPairs md2x2 = [(0, 0), (1, 0), (0, 1), (1, 1)] ∧
    rowMajorPairs md2x2.num_row_groups md2x2.num_columns =
      [(0, 0), (0, 1), (1, 0), (1, 1)] ∧
    sizesIterPairs md2x2 ≠ rowMajorPairs md2x2.num_row_groups md2x2.num_columns := by
  refine ⟨by decide, by decide, by decide⟩

/-- C2 (amended): every aggregate command's chunk iteration enumerates each
(row-group, column) index pair exactly once, with total count
`num_row_groups * num_columns`; `ratios` and `most_compressed` enumerate in
row-group-major order, while `sizes`, `schemes` and `types` enumerate in
column-major order. -/
theorem C2_iteration_pairs_amended (md : FileMetadata) :
    ratiosIterPairs md = rowMajorPairs md.num_row_groups md.num_columns ∧
    mcIterPairs md = rowMajorPairs md.num_row_groups md.num_columns ∧
    sizesIterPairs md = colMajorPairs md.num_row_groups md.num_columns ∧
    schemesIterPairs md = colMajorPairs md.num_row_groups md.num_columns ∧
    typesIterPairs md = colMajorPairs md.num_row_groups md.num_columns ∧
    (ratiosIterPairs md).Nodup ∧ (sizesIterPairs md).Nodup ∧
    (ratiosIterPairs md).length = md.num_row_groups * md.num_columns ∧
    (sizesIterPairs md).length = md.num_row_groups * md.num_columns ∧
    (∀ p : Nat × Nat, p ∈ ratiosIterPairs md ↔
      p.1 < md.num_row_groups ∧ p.2 < md.num_columns) ∧
    (∀ p : Nat × Nat, p ∈ sizesIterPairs md ↔
      p.1 < md.num_row_groups ∧ p.2 < md.num_columns) := by
  refine ⟨rfl, rfl, rfl, rfl, rfl, nodup_rowMajorPairs _ _, nodup_colMajorPairs _ _,
    length_rowMajorPairs _ _, length_colMajorPairs _ _,
    fun p => mem_rowMajorPairs, fun p => mem_colMajorPairs⟩

/-! ## Claim C4 -/

/-- C4: the nested schema `{id: int64, point: {x: double, y: double}}`
decodes to exactly 3 leaf columns with dotted paths `id`, `point.x`,
`point.y`, in that order: names concatenated from root to leaf with the
synthetic root omitted. -/
theorem C4_nested_schema_leaf_paths :
    mdNested.schemaPaths = ["id", "point.x", "point.y"] ∧
    mdNested.num_columns = 3 := by
  refine ⟨by decide, by decide⟩

/-! ## Claim C6 -/

/-- C6: truncating the last byte of any file the footer locator accepts
makes the locator fail with a `FormatError` (a bad magic or a footer length
exceeding the file size), never succeed. -/
theorem C6_truncated_trailer_fails (bytes : List Nat) (r : Nat × Nat)
    (h : locateFooter bytes = Except.ok r) :
    ∃ e : FmtErr, locateFooter bytes.dropLast = Except.error e := by
  unfold locateFooter at h
  by_cases h1 : bytes.length < 8
  · rw [if_pos h1] at h
    exact absurd h (by simp)
  rw [if_neg h1] at h
  by_cases h2 : bytes.drop (bytes.length - 4) ≠ PAR1
  · rw [if_pos h2] at h
    exact absurd h (by simp)
  rw [if_neg h2] at h
  push_neg at h2
  have hdl : bytes.dropLast.length = bytes.length - 1 := List.length_dropLast bytes
  by_cases h8 : bytes.length = 8
  · exact ⟨FmtErr.footerTooLarge, by
      unfold locateFooter
      rw [if_pos (show bytes.dropLast.length < 8 by omega)]⟩
  · have h9 : 9 ≤ bytes.length := by omega
    have hsplit : bytes = bytes.take (bytes.length - 4) ++ PAR1 := by
      conv_lhs => rw [← List.take_append_drop (bytes.length - 4) bytes]
      rw [h2]
    have ht : (bytes.take (bytes.length - 4)).length = bytes.length - 4 := by
      rw [List.length_take]; omega
    have hPAR : PAR1 = [0x50, 0x41, 0x52] ++ [0x31] := rfl
    have hdrop : bytes.dropLast =
        bytes.take (bytes.length - 4) ++ [0x50, 0x41, 0x52] := by
      conv_lhs => rw [hsplit, hPAR, ← List.append_assoc]
      exact List.dropLast_concat
    obtain ⟨y, hy⟩ : ∃ y,
        (bytes.take (bytes.length - 4)).drop (bytes.length - 5) = [y] := by
      apply List.length_eq_one.mp
      rw [List.length_drop, ht]; omega
    have hlen3 : ([0x50, 0x41, 0x52] : List Nat).length = 3 := rfl
    have hmagic : bytes.dropLast.drop (bytes.dropLast.length - 4) =
        [y, 0x50, 0x41, 0x52] := by
      rw [hdrop, List.length_append, ht, hlen3]
      rw [List.drop_append_of_le_length (by omega)]
      have harith : bytes.length - 4 + 3 - 4 = bytes.length - 5 := by omega
      rw [harith, hy]
      rfl
    refine ⟨FmtErr.badMagic, ?_⟩
    unfold locateFooter
    rw [if_neg (show ¬ bytes.dropLast.length < 8 by omega)]
    rw [if_pos (show bytes.dropLast.drop (bytes.dropLast.length - 4) ≠ PAR1 by
      rw [hmagic]; simp [PAR1])]

/-- C6 witness: the minimal valid file is accepted, and dropping its last
byte is rejected with a FormatError. -/
theorem C6_truncated_trailer_fails_witness :
    locateFooter pqBytesMin = Except.ok (0, 0) ∧
    ∃ e : FmtErr, locateFooter pqBytesMin.dropLast = Except.error e :=
  ⟨by decide, C6_truncated_trailer_fails pqBytesMin (0, 0) (by decide)⟩

/-! ## Counter and sorting lemmas -/

theorem sum_filter_split (p : Nat → Bool) :
    ∀ l : List Nat, (l.filter p).sum + (l.filter (fun x => !(p x))).sum = l.sum
  | [] => rfl
  | x :: xs => by
      have ih := sum_filter_split p xs
      by_cases hx : p x = true
      · simp [List.filter_cons, hx]
        omega
      · have hx2 : p x = false := by revert hx; cases p x <;> simp
        simp [List.filter_cons, hx2]
        omega

theorem sum_filter_eq_count (v : Nat) :
    ∀ l : List Nat, (l.filter (fun y => y == v)).sum = l.count v * v
  | [] => by simp
  | x :: xs => by
      have ih := sum_filter_eq_count v xs
      rw [List.filter_cons, List.count_cons]
      by_cases hx : x = v
      · subst hx
        rw [if_pos (by simp), if_pos (by simp), List.sum_cons, ih, Nat.add_mul,
          Nat.one_mul]
        omega
      · have hx2 : (x == v) = false := beq_eq_false_iff_ne.mpr hx
        rw [hx2]
        simp only [Bool.false_eq_true, if_false]
        rw [Nat.add_zero, ih]

theorem mem_pyDedupAux {α : Type} [DecidableEq α] (l : List α) :
    ∀ (seen : List α) (x : α), x ∈ pyDedupAux seen l ↔ x ∈ l ∧ x ∉ seen := by
  induction l with
  | nil => intro seen x; simp [pyDedupAux]
  | cons y ys ih =>
      intro seen x
      rw [pyDedupAux]
      by_cases hy : y ∈ seen
      · rw [if_pos hy, ih]
        simp only [List.mem_cons]
        constructor
        · rintro ⟨h1, h2⟩; exact ⟨Or.inr h1, h2⟩
        · rintro ⟨h1 | h1, h2⟩
          · subst h1; exact absurd hy h2
          · exact ⟨h1, h2⟩
      · rw [if_neg hy]
        simp only [List.mem_cons, ih, List.mem_cons]
        by_cases hxy : x = y
        · subst hxy; simp [hy]
        · simp [hxy]

theorem nodup_pyDedupAux {α : Type} [DecidableEq α] (l : List α) :
    ∀ seen : List α, (pyDedupAux seen l).Nodup := by
  induction l with
  | nil => intro seen; exact List.nodup_nil
  | cons y ys ih =>
      intro seen
      rw [pyDedupAux]
      by_cases hy : y ∈ seen
      · rw [if_pos hy]; exact ih seen
      · rw [if_neg hy]
        refine List.nodup_cons.mpr ⟨?_, ih (y :: seen)⟩
        intro hmem
        exact ((mem_pyDedupAux ys (y :: seen) y).mp hmem).2 (List.mem_cons_self y seen)

theorem nodup_pyDedup {α : Type} [DecidableEq α] (l : List α) :
    (pyDedup l).Nodup := nodup_pyDedupAux l []

theorem mem_pyDedup {α : Type} [DecidableEq α] (l : List α) (x : α) :
    x ∈ pyDedup l ↔ x ∈ l := by
  rw [pyDedup, mem_pyDedupAux]; simp

theorem weighted_count_sum :
    ∀ (d l : List Nat), d.Nodup → (∀ x, x ∈ d ↔ x ∈ l) →
      (d.map (fun v => v * l.count v)).sum = l.sum
  | [], l, _, hm => by
      have hl : l = [] := List.eq_nil_iff_forall_not_mem.mpr
        (fun a ha => (List.not_mem_nil a) ((hm a).mpr ha))
      subst hl; rfl
  | v :: d2, l, hd, hm => by
      have hdc := List.nodup_cons.mp hd
      have hsplit := sum_filter_split (fun y => y == v) l
      have hcnt := sum_filter_eq_count v l
      have hmem2 : ∀ x, x ∈ d2 ↔ x ∈ l.filter (fun y => !(y == v)) := by
        intro x
        constructor
        · intro hx
          have hxv : x ≠ v := fun he => hdc.1 (he ▸ hx)
          have hxl : x ∈ l := (hm x).mp (List.mem_cons_of_mem v hx)
          exact List.mem_filter.mpr ⟨hxl, by simp [hxv]⟩
        · intro hx
          have hx2 := List.mem_filter.mp hx
          have hxv : x ≠ v := by simpa using hx2.2
          rcases List.mem_cons.mp ((hm x).mpr hx2.1) with rfl | h2
          · exact absurd rfl hxv
          · exact h2
      have hcount2 : ∀ x ∈ d2, (l.filter (fun y => !(y == v))).count x = l.count x := by
        intro x hx
        have hxv : x ≠ v := fun he => hdc.1 (he ▸ hx)
        exact List.count_filter (by simp [hxv])
      have ih := weighted_count_sum d2 (l.filter (fun y => !(y == v))) hdc.2 hmem2
      calc ((v :: d2).map (fun w => w * l.count w)).sum
          = v * l.count v + (d2.map (fun w => w * l.count w)).sum := by
            simp [List.sum_cons]
        _ = v * l.count v +
            (d2.map (fun w => w * (l.filter (fun y => !(y == v))).count w)).sum := by
            have hmapeq : d2.map (fun w => w * l.count w) =
                d2.map (fun w => w * (l.filter (fun y => !(y == v))).count w) :=
              List.map_congr_left (fun x hx => by rw [hcount2 x hx])
            rw [hmapeq]
        _ = v * l.count v + (l.filter (fun y => !(y == v))).sum := by rw [ih]
        _ = l.sum := by rw [Nat.mul_comm]; omega

theorem counter_weighted_sum (l : List Nat) :
    ((counter l).map (fun p => p.1 * p.2)).sum = l.sum := by
  rw [counter, List.map_map]
  exact weighted_count_sum (pyDedup l) l (nodup_pyDedup l) (mem_pyDedup l)

theorem perm_insertSorted {α : Type} (le : α → α → Bool) (x : α) :
    ∀ l : List α, List.Perm (insertSorted le x l) (x :: l)
  | [] => List.Perm.refl _
  | y :: ys => by
      rw [insertSorted]
      by_cases h : le x y = true
      · rw [if_pos h]
      · rw [if_neg h]
        exact ((perm_insertSorted le x ys).cons y).trans (List.Perm.swap x y ys)

theorem perm_pySorted {α : Type} (le : α → α → Bool) :
    ∀ l : List α, List.Perm (pySorted le l) l
  | [] => List.Perm.refl _
  | x :: xs => by
      rw [pySorted]
      exact (perm_insertSorted le x (pySorted le xs)).trans
        ((perm_pySorted le xs).cons x)

/-! ## Claim C5 -/

theorem rowGroupsCounts_eval (md : FileMetadata) :
    rowGroupsCounts.run md =
      (Except.ok (md.row_groups.map RowGroup.num_rows), md) := by
  have hone : ∀ rg ∈ List.range md.num_row_groups,
      rowGroupsCount rg md =
        (Except.ok ((md.row_groups[rg]?.map RowGroup.num_rows).getD 0), md) := by
    intro rg hrg
    have hlt : rg < md.row_groups.length := List.mem_range.mp hrg
    have hsome : md.row_groups[rg]? = some md.row_groups[rg] :=
      List.getElem?_eq_getElem hlt
    rw [rowGroupsCount, bind_eval_ok (readRowGroup_eval hsome), hsome]
    rfl
  have hmap : (List.range md.num_row_groups).map
      (fun rg => (md.row_groups[rg]?.map RowGroup.num_rows).getD 0) =
      md.row_groups.map RowGroup.num_rows := by
    apply List.ext_getElem
    · simp [FileMetadata.num_row_groups]
    · intro i h1 h2
      have h3 : i < md.row_groups.length := by
        simpa [FileMetadata.num_row_groups] using h1
      simp [List.getElem?_eq_getElem h3]
  rw [rowGroupsCounts, PqM.run, bind_eval_ok (getMd_eval md),
    mapMList_eval hone, hmap]

/-- C5: for a valid parsed file the per-row-group record counts the
`row_groups` command reads partition the file's total row count: their sum,
and the count-weighted sum of the `Counter` table the command renders
(sorted or not), all equal the metadata's `num_rows`. -/
theorem C5_row_counts_partition_total (md : FileMetadata) (h : ValidFile md) :
    (rowGroupsCounts.run md).1 =
      Except.ok (md.row_groups.map RowGroup.num_rows) ∧
    (md.row_groups.map RowGroup.num_rows).sum = md.num_rows ∧
    ((counter (md.row_groups.map RowGroup.num_rows)).map
      (fun p => p.1 * p.2)).sum = md.num_rows ∧
    ∀ (sort_id : Nat) (reverse : Bool),
      ((pySorted (rowGroupsLe sort_id reverse)
          (counter (md.row_groups.map RowGroup.num_rows))).map
        (fun p => p.1 * p.2)).sum = md.num_rows := by
  refine ⟨by rw [rowGroupsCounts_eval], h.1, ?_, ?_⟩
  · rw [counter_weighted_sum]; exact h.1
  · intro sort_id reverse
    have hperm := (perm_pySorted (rowGroupsLe sort_id reverse)
      (counter (md.row_groups.map RowGroup.num_rows))).map (fun p : Nat × Nat => p.1 * p.2)
    rw [hperm.sum_eq, counter_weighted_sum]
    exact h.1

/-- C5 witness: the concrete two-row-group file is valid and its rendered
counter table sums back to the total row count. -/
theorem C5_row_counts_partition_total_witness :
    ValidFile md2x2 ∧
    ((counter (md2x2.row_groups.map RowGroup.num_rows)).map
      (fun p => p.1 * p.2)).sum = md2x2.num_rows :=
  ⟨by decide, (C5_row_counts_partition_total md2x2 (by decide)).2.2.1⟩

/-! ## Claim C3 -/

theorem render_table_cons {α : Type} (first : List (String × α))
    (rest : List (List (String × α))) :
    render_table (first :: rest) =
      Except.ok (first.map Prod.fst,
        (first :: rest).map (fun x =>
          (first.map Prod.fst).map (fun k => lookupCell x k))) := rfl

theorem minmaxRow_eval {md : FileMetadata} {col_num rg : Nat} {rgv : RowGroup}
    {x : ColumnChunk} {s : Statistics}
    (hrg : md.row_groups[rg]? = some rgv)
    (hx : rgv.columns[col_num]? = some x)
    (hs : x.statistics = some s) :
    minmaxRow col_num rg md =
      (Except.ok [("rg_num", Cell.nat rg),
                  ("min", Cell.rep (reportOpt s.min)),
                  ("max", Cell.rep (reportOpt s.max))], md) := by
  simp only [minmaxRow, bind_def, PqM.bindM, readRowGroup_eval hrg,
    column_eval hx md, hs, PqM.pureM]

/-- C3: when a column's statistics omit min and max but carry a null count,
the `minmax` command succeeds and reports min and max as "unknown" for every
row group, and the statistics query reports the null count as the encoded
integer — absent fields are never defaulted to zero. -/
theorem C3_absent_stats_reported_unknown (md : FileMetadata) (column : String)
    (col_num : Nat) (rest : List Nat)
    (hpos : 0 < md.num_row_groups)
    (hmatch : matchesMinmax md column = col_num :: rest)
    (hstats : ∀ rgv ∈ md.row_groups, ∃ x, rgv.columns[col_num]? = some x ∧
      ∃ s, x.statistics = some s ∧ s.min = none ∧ s.max = none ∧
        ∃ k, s.null_count = some k) :
    ((minmax column).run md).1 =
      Except.ok (["rg_num", "min", "max"],
        (List.range md.num_row_groups).map (fun rg =>
          [some (Cell.nat rg), some (Cell.rep Reported.unknown),
           some (Cell.rep Reported.unknown)])) ∧
    (∀ (s : Statistics) (k : Nat), s.min = none → s.max = none →
      s.null_count = some k →
      statsReport s = (Reported.unknown, Reported.unknown, Reported.known k)) := by
  constructor
  · have hone : ∀ rg ∈ List.range md.num_row_groups,
        minmaxRow col_num rg md =
          (Except.ok [("rg_num", Cell.nat rg),
                      ("min", Cell.rep Reported.unknown),
                      ("max", Cell.rep Reported.unknown)], md) := by
      intro rg hrg
      have hlt : rg < md.row_groups.length := List.mem_range.mp hrg
      have hsome : md.row_groups[rg]? = some md.row_groups[rg] :=
        List.getElem?_eq_getElem hlt
      obtain ⟨x, hx, s, hs, hmin, hmax, k, hk⟩ :=
        hstats md.row_groups[rg] (List.getElem_mem hlt)
      rw [minmaxRow_eval hsome hx hs, hmin, hmax]
      rfl
    have hloop := mapMList_eval hone
    simp only [minmax, PqM.run, bind_def, PqM.bindM, getMd, hmatch, PqM.pureM,
      hloop, liftEx]
    obtain ⟨m, hm⟩ : ∃ m, md.num_row_groups = m + 1 :=
      ⟨md.num_row_groups - 1, by omega⟩
    rw [hm, List.range_succ_eq_map, List.map_cons, List.map_cons,
      render_table_cons]
    simp [lookupCell, List.map_map]
  · intro s k hmin hmax hk
    simp [statsReport, reportOpt, hmin, hmax, hk]

/-- C3 witness: on the concrete file whose column "b" carries only a null
count, `minmax` reports unknown min and max for both row groups. -/
theorem C3_absent_stats_reported_unknown_witness :
    ((minmax "b").run mdStats).1 =
      Except.ok (["rg_num", "min", "max"],
        [[some (Cell.nat 0), some (Cell.rep Reported.unknown),
          some (Cell.rep Reported.unknown)],
         [some (Cell.nat 1), some (Cell.rep Reported.unknown),
          some (Cell.rep Reported.unknown)]]) ∧
    statsReport statsOnlyNulls =
      (Reported.unknown, Reported.unknown, Reported.known 7) := by
  have h := C3_absent_stats_reported_unknown mdStats "b" 1 []
    (by decide) (by decide)
    (by
      intro rgv hrgv
      fin_cases hrgv <;>
        exact ⟨_, rfl, statsOnlyNulls, rfl, rfl, rfl, 7, rfl⟩)
  exact ⟨h.1, h.2 statsOnlyNulls 7 rfl rfl rfl⟩

/-! ## Claim C8 -/

/-- C8: `render_table` needs a non-empty record list — the empty list is an
IndexError (`out[0]`); otherwise the headers are the first record's keys
and a key missing from a record renders as `None`. -/
theorem C8_render_table_first_record_keys :
    (render_table ([] : List (List (String × Cell))) =
      Except.error PyErr.indexError) ∧
    (∀ (first : List (String × Cell)) (rest : List (List (String × Cell))),
      render_table (first :: rest) =
        Except.ok (first.map Prod.fst,
          (first :: rest).map (fun x =>
            (first.map Prod.fst).map (fun k => lookupCell x k)))) ∧
    (∀ (x : List (String × Cell)) (k : String),
      k ∉ x.map Prod.fst → lookupCell x k = none) := by
  refine ⟨rfl, fun first rest => rfl, ?_⟩
  intro x k hk
  rw [lookupCell, List.find?_eq_none.mpr, Option.map_none']
  intro kv hkv
  simp only [beq_iff_eq]
  intro hkv2
  exact hk (hkv2 ▸ List.mem_map_of_mem Prod.fst hkv)

/-- C8 witness: a two-record table takes its headers from the first record
and renders the second record's missing key as `None`. -/
theorem C8_render_table_first_record_keys_witness :
    render_table ([] : List (List (String × Cell))) =
      Except.error PyErr.indexError ∧
    render_table [[("a", Cell.nat 1), ("b", Cell.nat 2)], [("a", Cell.nat 3)]] =
      Except.ok (["a", "b"],
        [[some (Cell.nat 1), some (Cell.nat 2)],
         [some (Cell.nat 3), none]]) ∧
    lookupCell [("a", Cell.nat 3)] "b" = none := by
  refine ⟨C8_render_table_first_record_keys.1, ?_, ?_⟩
  · rw [C8_render_table_first_record_keys.2.1 [("a", Cell.nat 1), ("b", Cell.nat 2)]
      [[("a", Cell.nat 3)]]]
    decide
  · exact C8_render_table_first_record_keys.2.2 [("a", Cell.nat 3)] "b" (by decide)

/-! ## Claim C9 -/

/-- C9: `minmax` succeeds only when some schema path equals the requested
column name; with no match, the `[0]` on the empty match list raises an
IndexError before any row is rendered (not a bounds-checked RangeError and
not an empty table). -/
theorem C9_minmax_requires_matching_column (md : FileMetadata) (column : String) :
    (matchesMinmax md column = [] →
      ((minmax column).run md).1 = Except.error PyErr.indexError) ∧
    (∀ out, ((minmax column).run md).1 = Except.ok out →
      ∃ p ∈ md.schemaPaths, p = column) := by
  constructor
  · intro h
    simp only [minmax, PqM.run, bind_def, PqM.bindM, getMd, h, throwPy]
  · intro out hout
    by_cases h : matchesMinmax md column = []
    · have herr : ((minmax column).run md).1 = Except.error PyErr.indexError := by
        simp only [minmax, PqM.run, bind_def, PqM.bindM, getMd, h, throwPy]
      rw [herr] at hout
      exact absurd hout (by simp)
    · have hfil : (md.schemaPaths.enum.filter (fun p => p.2 == column)) ≠ [] := by
        intro hnil
        rw [matchesMinmax, hnil] at h
        exact h rfl
      obtain ⟨q, hq⟩ := List.exists_mem_of_ne_nil _ hfil
      have hq1 := (List.mem_filter.mp hq).1
      have hq2 := (List.mem_filter.mp hq).2
      have hmem : q.2 ∈ md.schemaPaths := by
        rw [List.enum_eq_zip_range] at hq1
        cases q with
        | mk a b => exact (List.of_mem_zip hq1).2
      exact ⟨q.2, hmem, by simpa using hq2⟩

/-- C9 witness: on the concrete file, requesting a column name matching no
schema path fails with an IndexError. -/
theorem C9_minmax_requires_matching_column_witness :
    ((minmax "zzz").run md2x2).1 = Except.error PyErr.indexError :=
  (C9_minmax_requires_matching_column md2x2 "zzz").1 (by decide)

/-! ## Claim C10 -/

/-- C10: if every chunk is skipped by the `min_size` filter (for instance
`min_size` above every chunk's uncompressed size, or a file with no row
groups at all), `lowest_rg` and `lowest_col` stay `None` and the final
`row_group(None)` lookup fails with a TypeError. -/
theorem C10_most_compressed_all_skipped (md : FileMetadata) (min_size : Nat)
    (hwf : ∀ rgv ∈ md.row_groups, rgv.columns.length = md.num_columns)
    (hskip : ∀ rgv ∈ md.row_groups, ∀ x ∈ rgv.columns, mcSkip min_size x = true) :
    ((most_compressed min_size).run md).1 = Except.error PyErr.typeError := by
  have hstep : ∀ (st : Option ℚ × Option Nat × Option Nat) (p : Nat × Nat),
      p ∈ mcIterPairs md → mcStep min_size st p md = (Except.ok st, md) := by
    intro st p hp
    rw [mcIterPairs] at hp
    have hmem := mem_rowMajorPairs.mp hp
    have hlt : p.1 < md.row_groups.length := hmem.1
    have hsome : md.row_groups[p.1]? = some md.row_groups[p.1] :=
      List.getElem?_eq_getElem hlt
    have hrgvmem : md.row_groups[p.1] ∈ md.row_groups := List.getElem_mem hlt
    have hcollt : p.2 < md.row_groups[p.1].columns.length := by
      rw [hwf md.row_groups[p.1] hrgvmem]; exact hmem.2
    have hcol : md.row_groups[p.1].columns[p.2]? =
        some md.row_groups[p.1].columns[p.2] := List.getElem?_eq_getElem hcollt
    have hskipx := hskip md.row_groups[p.1] hrgvmem
      md.row_groups[p.1].columns[p.2] (List.getElem_mem hcollt)
    simp only [mcStep, bind_def, PqM.bindM, readRowGroup_eval hsome,
      column_eval hcol md, hskipx, if_true, PqM.pureM]
  have hfold := foldlMList_const (b := ((none, none, none) :
    Option ℚ × Option Nat × Option Nat)) (fun b2 x hx => hstep b2 x hx)
  simp only [most_compressed, PqM.run, bind_def, PqM.bindM, getMd, hfold,
    throwPy]

/-- C10 witness: with `min_size` above every chunk's uncompressed size on
the concrete 2×2 file, `most_compressed` fails with a TypeError. -/
theorem C10_most_compressed_all_skipped_witness :
    ((most_compressed 1000).run md2x2).1 = Except.error PyErr.typeError :=
  C10_most_compressed_all_skipped md2x2 1000 (by decide) (by decide)

/-! ## Claim C7: read-only commands -/

theorem pres_pureM {α : Type} (a : α) : Pres (PqM.pureM a) := fun _ => rfl

theorem pres_getMd : Pres getMd := fun _ => rfl

theorem pres_throwPy {α : Type} (e : PyErr) : Pres (throwPy e : PqM α) :=
  fun _ => rfl

theorem pres_liftEx {α : Type} (x : Except PyErr α) : Pres (liftEx x) :=
  fun _ => rfl

theorem pres_bind {α β : Type} {m : PqM α} {f : α → PqM β} (h1 : Pres m)
    (h2 : ∀ a, Pres (f a)) : Pres (m >>= f) := by
  intro s
  have hs := h1 s
  show (PqM.bindM m f s).2 = s
  unfold PqM.bindM
  cases hm : m s with
  | mk r s2 =>
    rw [hm] at hs
    have hs2 : s2 = s := hs
    cases r with
    | ok a =>
        show (f a s2).2 = s
        rw [hs2]
        exact h2 a s
    | error e =>
        exact hs2

theorem pres_ite {α : Type} (c : Prop) [Decidable c] {m1 m2 : PqM α}
    (h1 : Pres m1) (h2 : Pres m2) : Pres (if c then m1 else m2) := by
  by_cases h : c
  · rw [if_pos h]; exact h1
  · rw [if_neg h]; exact h2

theorem pres_pyIndex {α : Type} (l : List α) (i : Nat) : Pres (pyIndex l i) := by
  rw [pyIndex]
  cases l[i]? with
  | some a => exact pres_pureM a
  | none => exact pres_throwPy _

theorem pres_readRowGroup (i : Nat) : Pres (readRowGroup i) :=
  pres_bind pres_getMd (fun md => pres_pyIndex md.row_groups i)

theorem pres_column (r : RowGroup) (i : Nat) : Pres (r.column i) :=
  pres_pyIndex r.columns i

theorem pres_pyDiv (a b : Nat) : Pres (pyDiv a b) := by
  rw [pyDiv]
  exact pres_ite _ (pres_throwPy _) (pres_pureM _)

theorem pres_pyDivQ (a b : ℚ) : Pres (pyDivQ a b) := by
  rw [pyDivQ]
  exact pres_ite _ (pres_throwPy _) (pres_pureM _)

theorem pres_pyFloat (s : String) : Pres (pyFloat s) := by
  rw [pyFloat]
  split
  · split
    · exact pres_pureM _
    · exact pres_throwPy _
  · exact pres_throwPy _

theorem pres_mapMList {α β : Type} {f : α → PqM β} (h : ∀ a, Pres (f a)) :
    ∀ l : List α, Pres (mapMList f l)
  | [] => pres_pureM []
  | x :: xs => by
      rw [mapMList]
      exact pres_bind (h x) (fun y =>
        pres_bind (pres_mapMList h xs) (fun ys => pres_pureM (y :: ys)))

theorem pres_foldlMList {α β : Type} {f : β → α → PqM β}
    (h : ∀ b a, Pres (f b a)) :
    ∀ (l : List α) (b : β), Pres (foldlMList f b l)
  | [], b => pres_pureM b
  | x :: xs, b => by
      rw [foldlMList]
      exact pres_bind (h b x) (fun b2 => pres_foldlMList h xs b2)

theorem pres_reduceCounters (pairs : List (String × Nat)) :
    Pres (reduceCounters pairs) := by
  rw [reduceCounters.eq_def]
  cases pairs with
  | nil => exact pres_throwPy _
  | cons x xs => exact pres_pureM _

theorem pres_overall : Pres overall := pres_getMd

theorem pres_rowGroupsCount (rg : Nat) : Pres (rowGroupsCount rg) :=
  pres_bind (pres_readRowGroup rg) (fun r => pres_pureM r.num_rows)

theorem pres_rowGroupsCounts : Pres rowGroupsCounts :=
  pres_bind pres_getMd (fun md => pres_mapMList pres_rowGroupsCount _)

theorem pres_row_groups (sort_key : String) (reverse : Bool) :
    Pres (row_groups sort_key reverse) :=
  pres_bind pres_rowGroupsCounts (fun counts => pres_liftEx _)

theorem pres_schemesItem (p : Nat × Nat) : Pres (schemesItem p) :=
  pres_bind (pres_readRowGroup p.1) (fun rgv =>
    pres_bind (pres_column rgv p.2) (fun x => pres_pureM x.compression))

theorem pres_schemes : Pres schemes :=
  pres_bind pres_getMd (fun md =>
    pres_bind (pres_mapMList pres_schemesItem _) (fun lst => pres_pureM _))

theorem pres_sizesItem (p : Nat × Nat) : Pres (sizesItem p) :=
  pres_bind (pres_readRowGroup p.1) (fun rgv =>
    pres_bind (pres_column rgv p.2) (fun x => pres_pureM _))

theorem pres_sizes : Pres sizes :=
  pres_bind pres_getMd (fun md =>
    pres_bind (pres_mapMList pres_sizesItem _) (fun pairs =>
      pres_bind (pres_reduceCounters pairs) (fun c => pres_pureM _)))

theorem pres_typesItem (p : Nat × Nat) : Pres (typesItem p) :=
  pres_bind (pres_readRowGroup p.1) (fun rgv =>
    pres_bind (pres_column rgv p.2) (fun x => pres_pureM _))

theorem pres_typesHtmlStep (col_names : List String)
    (stats : List (String × List (String × Nat))) (p : Nat × Nat) :
    Pres (typesHtmlStep col_names stats p) :=
  pres_bind (pres_readRowGroup p.1) (fun rgv =>
    pres_bind (pres_column rgv p.2) (fun x =>
      pres_bind (pres_pyIndex col_names p.2) (fun cn => pres_pureM _)))

theorem pres_types (html : Bool) : Pres (types html) := by
  rw [types]
  refine pres_bind pres_getMd (fun md => ?_)
  cases html with
  | true =>
      exact pres_bind (pres_foldlMList (pres_typesHtmlStep md.schemaPaths) _ [])
        (fun stats => pres_pureM _)
  | false =>
      exact pres_bind (pres_mapMList pres_typesItem _) (fun pairs =>
        pres_bind (pres_reduceCounters pairs) (fun c => pres_pureM _))

theorem pres_mcStep (min_size : Nat) (st : Option ℚ × Option Nat × Option Nat)
    (p : Nat × Nat) : Pres (mcStep min_size st p) :=
  pres_bind (pres_readRowGroup p.1) (fun rgv =>
    pres_bind (pres_column rgv p.2) (fun x =>
      pres_ite _ (pres_pureM st)
        (pres_bind (pres_pyDiv _ _) (fun ratio =>
          pres_ite _ (pres_pureM _) (pres_pureM st)))))

theorem pres_most_compressed (min_size : Nat) : Pres (most_compressed min_size) := by
  rw [most_compressed]
  refine pres_bind pres_getMd (fun md => ?_)
  beta_reduce
  refine pres_bind (pres_foldlMList (pres_mcStep min_size) _ _) (fun st => ?_)
  beta_reduce
  rcases st with ⟨lv, lrg, lcol⟩
  cases lrg with
  | none =>
      cases lcol with
      | none => exact pres_throwPy _
      | some c => exact pres_throwPy _
  | some rg =>
      cases lcol with
      | none => exact pres_throwPy _
      | some c =>
          exact pres_bind (pres_readRowGroup rg) (fun rgv =>
            pres_bind (pres_column rgv c) (fun x =>
              pres_bind (pres_pyDiv _ _) (fun r => pres_pureM _)))

theorem pres_ratiosItem (p : Nat × Nat) : Pres (ratiosItem p) :=
  pres_bind (pres_readRowGroup p.1) (fun rgv =>
    pres_bind (pres_column rgv p.2) (fun x =>
      pres_bind (pres_pyDiv _ _) (fun ratio => pres_pureM _)))

theorem pres_ratiosRec (q : String × Nat) : Pres (ratiosRec q) :=
  pres_bind (pres_pyFloat q.1) (fun v =>
    pres_bind (pres_pyDivQ 1 v) (fun inv => pres_pureM _))

theorem pres_ratios (sort_key : String) (reverse : Bool) :
    Pres (ratios sort_key reverse) :=
  pres_bind pres_getMd (fun md =>
    pres_bind (pres_mapMList pres_ratiosItem _) (fun ratioStrs =>
      pres_bind (pres_mapMList pres_ratiosRec _) (fun recs => pres_liftEx _)))

theorem pres_minmaxRow (col_num rg : Nat) : Pres (minmaxRow col_num rg) := by
  refine pres_bind (pres_readRowGroup rg) (fun rgv => ?_)
  beta_reduce
  refine pres_bind (pres_column rgv col_num) (fun x => ?_)
  beta_reduce
  cases x.statistics with
  | none => exact pres_bind (pres_throwPy _) (fun st => pres_pureM _)
  | some s => exact pres_bind (pres_pureM s) (fun st => pres_pureM _)

theorem pres_minmax (column : String) : Pres (minmax column) := by
  refine pres_bind pres_getMd (fun md => ?_)
  beta_reduce
  cases matchesMinmax md column with
  | nil =>
      exact pres_bind (pres_throwPy _) (fun col_num => pres_bind
        (pres_mapMList (pres_minmaxRow col_num) _) (fun rows => pres_liftEx _))
  | cons i t =>
      exact pres_bind (pres_pureM i) (fun col_num => pres_bind
        (pres_mapMList (pres_minmaxRow col_num) _) (fun rows => pres_liftEx _))

theorem pres_rbcItem (cols : List String) (p : Nat × Nat) :
    Pres (rbcItem cols p) :=
  pres_bind (pres_pyIndex cols p.2) (fun name =>
    pres_bind (pres_readRowGroup p.1) (fun rgv =>
      pres_bind (pres_column rgv p.2) (fun x =>
        pres_bind (pres_pyDiv _ _) (fun eff => pres_pureM _))))

theorem pres_ratios_by_column : Pres ratios_by_column :=
  pres_bind pres_getMd (fun md => pres_mapMList (pres_rbcItem md.schemaPaths) _)

/-- C7: every command only reads the parsed metadata tree: running any of
the nine commands from any parsed state leaves the metadata unchanged. -/
theorem C7_commands_preserve_metadata (md : FileMetadata) (sort_key : String)
    (reverse : Bool) (min_size : Nat) (column : String) (html : Bool) :
    (overall.run md).2 = md ∧
    ((row_groups sort_key reverse).run md).2 = md ∧
    (schemes.run md).2 = md ∧
    (sizes.run md).2 = md ∧
    ((types html).run md).2 = md ∧
    ((most_compressed min_size).run md).2 = md ∧
    ((ratios sort_key reverse).run md).2 = md ∧
    ((minmax column).run md).2 = md ∧
    (ratios_by_column.run md).2 = md :=
  ⟨pres_overall md, pres_row_groups sort_key reverse md, pres_schemes md,
   pres_sizes md, pres_types html md, pres_most_compressed min_size md,
   pres_ratios sort_key reverse md, pres_minmax column md,
   pres_ratios_by_column md⟩

end PqView
